import Mathlib

/-!
Verification development for `src/dikuchat.rs` (laumann/dikuchat-rs), a
minimal multi-client chat relay written in pre-1.0 (2014-era) Rust.

The development shallowly embeds the two computational cores of the program:

* the protocol decoder `process_input` (src/dikuchat.rs lines 25-51), and
* the per-session dispatcher of `handle_client` (src/dikuchat.rs lines 95-134)
  together with the shared client registry (a `HashMap<Uuid, (Sender, String)>`
  behind an `RWLock`, line 20).

A note on the decoder's iterator semantics, which the embedding must get
right.  The source builds `let mut it = inp.iter().peekable()` and then calls
`it.take_while(|&c| ... it.peek() ...)` and later `it.skip(5)` /
`it.skip(10)`.  In 2014 Rust, `Iterator::take_while` and `Iterator::skip`
take `self` by value, and a slice iterator (and its `Peekable` wrapper) is an
implicitly copyable POD type, so each of these adaptor calls iterates over a
COPY of `it`, while the closure's `it.peek()` reads the ORIGINAL `it`.
`peek` never consumes from the peekable's point of view, and the original
`it` is never `next()`-ed directly, so throughout `process_input`:

* `it.peek()` always yields the FIRST byte of the input (or nothing for an
  empty input), and
* the content remaining in (a fresh copy of) `it` is always the WHOLE input,
  so `it.skip(5)` iterates `inp` with its first 5 bytes dropped.

The operational model `collectTok`/`collectRest`/`process_input_op` below
follows the source's iterator protocol step by step (explicit peek buffer,
copied adaptor input, short-circuit evaluation of the predicate), and the
closed-form decoder `process_input` is proved equal to it
(`process_input_op_eq`).  Claims are settled against `process_input`.

Bytes are modelled as `Char` (a byte b is the character with code point b;
the program only ever compares bytes against ASCII literals and converts
collected byte vectors through `into_ascii()`, which asserts that every byte
is below 128 and otherwise fails the task -- modelled by `DecodeResult.panic`).
-/

namespace Dikuchat

/-- `enum Method` (src/dikuchat.rs lines 8-13). -/
inductive Method where
  | Quit : Method
  | Who : Method
  | Name : String → Method
  | Broadcast : String → Method
deriving DecidableEq, Repr

/-- Result of one `process_input` call as observed by the caller: a decoded
command (`Some(m)`), a decode failure (`None`), or a task failure raised by
`into_ascii()`'s ASCII assertion on a non-ASCII byte vector. -/
inductive DecodeResult where
  | panic : DecodeResult
  | fail : DecodeResult
  | ok : Method → DecodeResult
deriving DecidableEq, Repr

/-- `into_ascii()`'s per-byte assertion: the byte is ASCII (below 128). -/
def isAsciiByte (c : Char) : Bool := c.toNat < 128

/-- The constant value of `it.peek().map_or(false, |&c2| *c2 != b'\n')` in the
predicates of src/dikuchat.rs lines 27-29, 38 and 44: the original peekable is
never advanced, so `peek` always returns the first byte of the input. -/
def headOk (inp : List Char) : Bool :=
  match inp with
  | [] => false
  | c :: _ => c != '\n'

/-- `process_input` (src/dikuchat.rs lines 25-51), closed form.

* `m` is the keyword vector collected on lines 27-31: the copy of `it` driven
  by `take_while` yields `inp` itself, each byte `c` is kept while
  `c != b' ' && c != b'\r'` and the original's peek (= first byte of `inp`)
  is present and `!= b'\n'`.
* The `match` on `m.into_ascii().into_string().as_slice()` (line 33) first
  panics if `m` has a non-ASCII byte, then compares against the four keyword
  literals in source order.
* The `NAME` arm (lines 36-42) collects `it.skip(5).take_while(...)`: the
  copy of `it` still holds the whole input, so this is `inp.drop 5` filtered
  by `c != b'\r'` and the same constant peek conjunct; an empty result is a
  decode failure (checked before the ASCII conversion of the name).
* The `BROADCAST` arm (lines 43-48) is the same with `skip(10)` and no
  emptiness check. -/
def process_input (inp : List Char) : DecodeResult :=
  let m := inp.takeWhile fun c => c != ' ' && c != '\r' && headOk inp
  if !(m.all isAsciiByte) then .panic
  else if m.asString = "QUIT" then .ok .Quit
  else if m.asString = "WHO" then .ok .Who
  else if m.asString = "NAME" then
    let nm := (inp.drop 5).takeWhile fun c => c != '\r' && headOk inp
    if nm.isEmpty then .fail
    else if !(nm.all isAsciiByte) then .panic
    else .ok (.Name nm.asString)
  else if m.asString = "BROADCAST" then
    let msg := (inp.drop 10).takeWhile fun c => c != '\r' && headOk inp
    if !(msg.all isAsciiByte) then .panic
    else .ok (.Broadcast msg.asString)
  else .fail

/-! ### Operational model of the 2014 iterator protocol

`PeekIter` is `Peekable<&u8, Items<u8>>`: a one-element peek buffer plus the
remaining underlying bytes. -/

structure PeekIter where
  buf : Option Char
  rest : List Char
deriving DecidableEq, Repr

/-- A fresh `inp.iter().peekable()`. -/
def PeekIter.ofList (l : List Char) : PeekIter := ⟨none, l⟩

/-- `Peekable::peek`: fill the buffer from the underlying iterator if empty,
then return the buffered element (mutating the iterator it is called on). -/
def PeekIter.peek : PeekIter → Option Char × PeekIter
  | ⟨some c, r⟩ => (some c, ⟨some c, r⟩)
  | ⟨none, []⟩ => (none, ⟨none, []⟩)
  | ⟨none, c :: r⟩ => (some c, ⟨some c, r⟩)

/-- The bytes a copy of the peekable would still yield: buffer then rest. -/
def PeekIter.content (it : PeekIter) : List Char :=
  (match it.buf with
   | some c => [c]
   | none => []) ++ it.rest

/-- The `take_while` of src/dikuchat.rs lines 27-31 driving a COPY of `it`
(first argument: the byte sequence the copy yields) while the predicate peeks
the shared ORIGINAL (second argument).  The predicate short-circuits: the
original is peeked only when `c` is neither `b' '` nor `b'\r'`.  Returns the
collected vector and the original's final state. -/
def collectTok : List Char → PeekIter → List Char × PeekIter
  | [], orig => ([], orig)
  | c :: cp, orig =>
    if c == ' ' || c == '\r' then ([], orig)
    else
      match orig.peek with
      | (none, orig2) => ([], orig2)
      | (some c2, orig2) =>
        if c2 == '\n' then ([], orig2)
        else
          let (t, orig3) := collectTok cp orig2
          (c :: t, orig3)

/-- The `take_while` of src/dikuchat.rs lines 38 and 44 (the `NAME` and
`BROADCAST` arms): same protocol, but the predicate has no `b' '` test. -/
def collectRest : List Char → PeekIter → List Char × PeekIter
  | [], orig => ([], orig)
  | c :: cp, orig =>
    if c == '\r' then ([], orig)
    else
      match orig.peek with
      | (none, orig2) => ([], orig2)
      | (some c2, orig2) =>
        if c2 == '\n' then ([], orig2)
        else
          let (t, orig3) := collectRest cp orig2
          (c :: t, orig3)

/-- `process_input`, operational version: the iterator protocol played out
literally.  `it.take_while(...)` iterates `it0.content` (a copy of the fresh
peekable, i.e. all of `inp`); the `NAME`/`BROADCAST` arms iterate
`it1.content.drop k` (a copy of the original after the first phase, skipped
by `k`), with the original threaded through for the peeks. -/
def process_input_op (inp : List Char) : DecodeResult :=
  let it0 := PeekIter.ofList inp
  let p1 := collectTok it0.content it0
  let m := p1.1
  let it1 := p1.2
  if !(m.all isAsciiByte) then .panic
  else if m.asString = "QUIT" then .ok .Quit
  else if m.asString = "WHO" then .ok .Who
  else if m.asString = "NAME" then
    let nm := (collectRest (it1.content.drop 5) it1).1
    if nm.isEmpty then .fail
    else if !(nm.all isAsciiByte) then .panic
    else .ok (.Name nm.asString)
  else if m.asString = "BROADCAST" then
    let msg := (collectRest (it1.content.drop 10) it1).1
    if !(msg.all isAsciiByte) then .panic
    else .ok (.Broadcast msg.asString)
  else .fail

/-- `peek` returns the head of the iterator's content and leaves the content
unchanged. -/
theorem PeekIter.peek_spec (it : PeekIter) :
    (it.peek.1 = it.content.head?) ∧ it.peek.2.content = it.content := by
  rcases it with ⟨_ | c, _ | ⟨d, r⟩⟩ <;> simp [PeekIter.peek, PeekIter.content]

/-- `headOk` in terms of `head?`. -/
theorem headOk_eq_head? (l : List Char) :
    headOk l = (match l.head? with
                | none => false
                | some c => c != '\n') := by
  cases l <;> simp [headOk]

/-- `collectTok` collects exactly the closed-form token and preserves the
original's content. -/
theorem collectTok_spec (cp : List Char) (orig : PeekIter) :
    (collectTok cp orig).1 =
      cp.takeWhile (fun c => c != ' ' && c != '\r' && headOk orig.content) ∧
    (collectTok cp orig).2.content = orig.content := by
  induction cp generalizing orig with
  | nil => simp [collectTok]
  | cons c cp ih =>
    obtain ⟨hpk1, hpk2⟩ := PeekIter.peek_spec orig
    rcases hp : orig.peek with ⟨pc, orig2⟩
    rw [hp] at hpk1 hpk2
    dsimp only at hpk1 hpk2
    cases hc1 : (c == ' ') with
    | true =>
      have hceq : c = ' ' := by simpa using hc1
      subst hceq
      simp [collectTok, List.takeWhile_cons]
    | false =>
    cases hc2 : (c == '\r') with
    | true =>
      have hceq : c = '\r' := by simpa using hc2
      subst hceq
      simp [collectTok, List.takeWhile_cons]
    | false =>
    have hcond : (c == ' ' || c == '\r') = false := by simp [hc1, hc2]
    cases pc with
    | none =>
      have hnil : orig.content = [] := by
        cases hcon : orig.content with
        | nil => rfl
        | cons d tl => rw [hcon] at hpk1; simp at hpk1
      simp [collectTok, hcond, hp, List.takeWhile_cons, hnil, headOk, hpk2]
    | some c2 =>
      have hho : headOk orig.content = (c2 != '\n') := by
        rw [headOk_eq_head?, ← hpk1]
      cases hnl : (c2 == '\n') with
      | true =>
        have hfa : headOk orig.content = false := by
          rw [hho]; simpa using hnl
        simp [collectTok, hcond, hp, hnl, List.takeWhile_cons, hfa, hpk2]
      | false =>
        have htr : headOk orig.content = true := by
          rw [hho]; simpa using hnl
        obtain ⟨ih1, ih2⟩ := ih orig2
        rw [hpk2] at ih1 ih2
        rcases hres : collectTok cp orig2 with ⟨t, o3⟩
        rw [hres] at ih1 ih2
        dsimp only at ih1 ih2
        have hne1 : c ≠ ' ' := by simpa using hc1
        have hne2 : c ≠ '\r' := by simpa using hc2
        simp [collectTok, hcond, hp, hnl, hres, List.takeWhile_cons, htr,
          hc1, hc2, hne1, hne2, ih1, ih2]

/-- `collectRest` collects exactly the closed-form rest-of-line and preserves
the original's content. -/
theorem collectRest_spec (cp : List Char) (orig : PeekIter) :
    (collectRest cp orig).1 =
      cp.takeWhile (fun c => c != '\r' && headOk orig.content) ∧
    (collectRest cp orig).2.content = orig.content := by
  induction cp generalizing orig with
  | nil => simp [collectRest]
  | cons c cp ih =>
    obtain ⟨hpk1, hpk2⟩ := PeekIter.peek_spec orig
    rcases hp : orig.peek with ⟨pc, orig2⟩
    rw [hp] at hpk1 hpk2
    dsimp only at hpk1 hpk2
    cases hc2 : (c == '\r') with
    | true =>
      have hceq : c = '\r' := by simpa using hc2
      subst hceq
      simp [collectRest, List.takeWhile_cons]
    | false =>
    cases pc with
    | none =>
      have hnil : orig.content = [] := by
        cases hcon : orig.content with
        | nil => rfl
        | cons d tl => rw [hcon] at hpk1; simp at hpk1
      simp [collectRest, hc2, hp, List.takeWhile_cons, hnil, headOk, hpk2]
    | some c2 =>
      have hho : headOk orig.content = (c2 != '\n') := by
        rw [headOk_eq_head?, ← hpk1]
      cases hnl : (c2 == '\n') with
      | true =>
        have hfa : headOk orig.content = false := by
          rw [hho]; simpa using hnl
        simp [collectRest, hc2, hp, hnl, List.takeWhile_cons, hfa, hpk2]
      | false =>
        have htr : headOk orig.content = true := by
          rw [hho]; simpa using hnl
        obtain ⟨ih1, ih2⟩ := ih orig2
        rw [hpk2] at ih1 ih2
        rcases hres : collectRest cp orig2 with ⟨t, o3⟩
        rw [hres] at ih1 ih2
        dsimp only at ih1 ih2
        have hne2 : c ≠ '\r' := by simpa using hc2
        simp [collectRest, hc2, hp, hnl, hres, List.takeWhile_cons, htr,
          hne2, ih1, ih2]

/-- The operational decoder and the closed-form decoder agree: the iterator
copying of pre-1.0 Rust makes `process_input` compute exactly the closed
form used by the claims below. -/
theorem process_input_op_eq (inp : List Char) :
    process_input_op inp = process_input inp := by
  have h0 : (PeekIter.ofList inp).content = inp := by
    simp [PeekIter.ofList, PeekIter.content]
  obtain ⟨ht1, ht2⟩ := collectTok_spec (PeekIter.ofList inp).content (PeekIter.ofList inp)
  rcases hres : collectTok (PeekIter.ofList inp).content (PeekIter.ofList inp) with ⟨m, it1⟩
  rw [hres] at ht1 ht2
  dsimp only at ht1 ht2
  rw [h0] at ht1 ht2
  obtain ⟨hr5, _⟩ := collectRest_spec (it1.content.drop 5) it1
  obtain ⟨hr10, _⟩ := collectRest_spec (it1.content.drop 10) it1
  rw [ht2] at hr5 hr10
  rw [h0] at hres
  simp only [process_input_op, process_input, h0, hres, ht1, ht2, hr5, hr10]

/-! ### Generic takeWhile helpers for the decoder claims -/

/-- `takeWhile` over a prefix that fully satisfies the predicate followed by
a suffix whose own `takeWhile` is empty collects exactly the prefix. -/
theorem takeWhile_eq_prefix {α : Type} (p : α → Bool) (l1 l2 : List α)
    (h1 : ∀ c ∈ l1, p c = true) (h2 : l2.takeWhile p = []) :
    (l1 ++ l2).takeWhile p = l1 := by
  induction l1 with
  | nil => simpa using h2
  | cons a t ih =>
    have ha : p a = true := h1 a (by simp)
    have ht : ∀ c ∈ t, p c = true := fun c hc => h1 c (by simp [hc])
    simp [List.takeWhile_cons_of_pos ha, ih ht]

/-- If `takeWhile p` collects `t`, every element of `t` satisfies `q`, and
failing `p` forces failing `q`, then `takeWhile q` collects the same `t`. -/
theorem takeWhile_of_stronger {α : Type} (p q : α → Bool) :
    ∀ (l t : List α), l.takeWhile p = t → (∀ c ∈ t, q c = true) →
      (∀ c, ¬ p c = true → ¬ q c = true) → l.takeWhile q = t
  | [], t, hpt, _, _ => by simpa using hpt
  | c :: tl, t, hpt, ht, himp => by
    cases hc : p c with
    | true =>
      rw [List.takeWhile_cons_of_pos hc] at hpt
      subst hpt
      have hq : q c = true := ht c (by simp)
      rw [List.takeWhile_cons_of_pos hq]
      have := takeWhile_of_stronger p q tl (tl.takeWhile p) rfl
        (fun d hd => ht d (by simp [hd])) himp
      rw [this]
    | false =>
      rw [List.takeWhile_cons_of_neg (by simp [hc])] at hpt
      subst hpt
      have hq : ¬ q c = true := himp c (by simp [hc])
      rw [List.takeWhile_cons_of_neg hq]

/-- A `takeWhile` result inherits an `all` bound from the underlying list. -/
theorem takeWhile_all {α : Type} (p q : α → Bool) (l : List α)
    (h : l.all q = true) : (l.takeWhile p).all q = true := by
  rw [List.all_eq_true] at h ⊢
  exact fun c hc => h c ((List.takeWhile_sublist p).mem hc)

/-! ### Claims C3-C6: the protocol decoder -/

/-- C4: the input line consisting exactly of the bytes QUIT (terminator
already stripped) decodes to the Quit command, and the line WHO decodes to
the Who command. -/
theorem c4_quit_who_decode :
    process_input ("QUIT".toList) = DecodeResult.ok Method.Quit ∧
    process_input ("WHO".toList) = DecodeResult.ok Method.Who := by
  decide

/-- C3 counterexample: the line "NAME \rx" has the form "NAME " followed by
the non-empty rest-of-line "\rx", but the decoder returns a decode failure
instead of SetName("\rx"): the rest-of-line collector stops at the carriage
return byte, leaving an empty name. -/
theorem c3_counterexample :
    process_input ("NAME \rx".toList) = DecodeResult.fail ∧
    process_input ("NAME \rx".toList) ≠ DecodeResult.ok (Method.Name "\rx") := by
  decide

/-- C3 (amended): for an ASCII rest-of-line r, "NAME " ++ r decodes to
SetName of the longest prefix of r that contains no carriage return (hence
to SetName(r) whenever r is CR-free), and to a decode failure when that
prefix is empty (r empty, or r starting with a CR byte). -/
theorem c3_amended (r : List Char) (hascii : r.all isAsciiByte = true) :
    process_input ("NAME ".toList ++ r) =
      if (r.takeWhile fun c => c != '\r').isEmpty then DecodeResult.fail
      else DecodeResult.ok (Method.Name (r.takeWhile fun c => c != '\r').asString) := by
  have hL : ("NAME ".toList : List Char) = ['N', 'A', 'M', 'E', ' '] := rfl
  rw [hL]
  set inp := (['N', 'A', 'M', 'E', ' '] : List Char) ++ r with hinp
  have hho : headOk inp = true := rfl
  have hpred : (fun c : Char => c != ' ' && c != '\r' && headOk inp) =
      (fun c : Char => c != ' ' && c != '\r') := by
    funext c; rw [hho, Bool.and_true]
  have hm : inp.takeWhile (fun c => c != ' ' && c != '\r' && headOk inp) =
      ['N', 'A', 'M', 'E'] := by
    rw [hpred]
    have hsplit : inp = ['N', 'A', 'M', 'E'] ++ (' ' :: r) := by simp [hinp]
    rw [hsplit]
    apply takeWhile_eq_prefix
    · intro c hc; fin_cases hc <;> decide
    · exact List.takeWhile_cons_of_neg (by decide)
  have hdrop : inp.drop 5 = r := rfl
  have hpred2 : (fun c : Char => c != '\r' && headOk inp) =
      (fun c : Char => c != '\r') := by
    funext c; rw [hho, Bool.and_true]
  have hnm_ascii : (r.takeWhile fun c => c != '\r').all isAsciiByte = true :=
    takeWhile_all _ _ r hascii
  simp only [process_input, hm, hdrop, hpred2]
  rw [if_neg (by decide), if_neg (by decide), if_neg (by decide),
    if_pos (by decide)]
  by_cases hie : (r.takeWhile fun c => c != '\r').isEmpty = true
  · rw [if_pos hie, if_pos hie]
  · rw [if_neg hie, if_neg hie, if_neg (by simp [hnm_ascii])]

/-- C3 witness: "NAME alice" decodes to SetName("alice"). -/
theorem c3_witness :
    process_input ("NAME alice".toList) = DecodeResult.ok (Method.Name "alice") := by
  have h := c3_amended ("alice".toList) (by decide)
  have e : ("NAME ".toList ++ "alice".toList : List Char) = "NAME alice".toList := by
    decide
  rw [e] at h
  rw [h]
  decide

/-- C6 counterexample: the line "BROADCAST a\rb" has the form "BROADCAST "
followed by the rest-of-line "a\rb", but the decoder returns Broadcast("a"),
not Broadcast("a\rb"): the rest-of-line collector stops at the carriage
return byte. -/
theorem c6_counterexample :
    process_input ("BROADCAST a\rb".toList) = DecodeResult.ok (Method.Broadcast "a") ∧
    process_input ("BROADCAST a\rb".toList) ≠ DecodeResult.ok (Method.Broadcast "a\rb") := by
  decide

/-- C6 (amended): for an ASCII rest-of-line r (possibly empty), the line
"BROADCAST " ++ r decodes to Broadcast of the longest prefix of r that
contains no carriage return (hence to Broadcast(r) whenever r is CR-free). -/
theorem c6_amended (r : List Char) (hascii : r.all isAsciiByte = true) :
    process_input ("BROADCAST ".toList ++ r) =
      DecodeResult.ok (Method.Broadcast (r.takeWhile fun c => c != '\r').asString) := by
  have hL : ("BROADCAST ".toList : List Char) =
      ['B', 'R', 'O', 'A', 'D', 'C', 'A', 'S', 'T', ' '] := rfl
  rw [hL]
  set inp := (['B', 'R', 'O', 'A', 'D', 'C', 'A', 'S', 'T', ' '] : List Char) ++ r
    with hinp
  have hho : headOk inp = true := rfl
  have hpred : (fun c : Char => c != ' ' && c != '\r' && headOk inp) =
      (fun c : Char => c != ' ' && c != '\r') := by
    funext c; rw [hho, Bool.and_true]
  have hm : inp.takeWhile (fun c => c != ' ' && c != '\r' && headOk inp) =
      ['B', 'R', 'O', 'A', 'D', 'C', 'A', 'S', 'T'] := by
    rw [hpred]
    have hsplit : inp = ['B', 'R', 'O', 'A', 'D', 'C', 'A', 'S', 'T'] ++ (' ' :: r) := by
      simp [hinp]
    rw [hsplit]
    apply takeWhile_eq_prefix
    · intro c hc; fin_cases hc <;> decide
    · exact List.takeWhile_cons_of_neg (by decide)
  have hdrop : inp.drop 10 = r := rfl
  have hpred2 : (fun c : Char => c != '\r' && headOk inp) =
      (fun c : Char => c != '\r') := by
    funext c; rw [hho, Bool.and_true]
  have hmsg_ascii : (r.takeWhile fun c => c != '\r').all isAsciiByte = true :=
    takeWhile_all _ _ r hascii
  simp only [process_input, hm, hdrop, hpred2]
  rw [if_neg (by decide), if_neg (by decide), if_neg (by decide),
    if_neg (by decide), if_pos (by decide), if_neg (by simp [hmsg_ascii])]

/-- C6 witness: "BROADCAST hi" decodes to Broadcast("hi"). -/
theorem c6_witness :
    process_input ("BROADCAST hi".toList) = DecodeResult.ok (Method.Broadcast "hi") := by
  have h := c6_amended ("hi".toList) (by decide)
  have e : ("BROADCAST ".toList ++ "hi".toList : List Char) = "BROADCAST hi".toList := by
    decide
  rw [e] at h
  rw [h]
  decide

/-- The four command keywords of the grammar (spec section 4.1). -/
def keywords : List String := ["QUIT", "WHO", "NAME", "BROADCAST"]

/-- The first whitespace-delimited token of a line, as the spec's grammar
reads it ("first whitespace-delimited token is the command keyword"). -/
def firstWsToken (inp : List Char) : List Char :=
  inp.takeWhile fun c => !c.isWhitespace

/-- C5 counterexample: the one-byte line 0xFF has a first whitespace-delimited
token (the byte itself) that is none of the keywords, yet the decoder does
not signal a decode failure: `into_ascii()` asserts on the non-ASCII byte and
the reader task dies instead. -/
theorem c5_counterexample :
    (firstWsToken [Char.ofNat 255]).asString ∉ keywords ∧
    process_input [Char.ofNat 255] ≠ DecodeResult.fail ∧
    process_input [Char.ofNat 255] = DecodeResult.panic := by
  decide

/-- C5 (amended): for every ASCII input line whose first whitespace-delimited
token is none of the keywords QUIT, WHO, NAME, BROADCAST, the decoder signals
a decode failure and returns no command; a line whose collected token holds a
non-ASCII byte instead aborts in the `into_ascii()` assertion. -/
theorem c5_amended (inp : List Char) (hascii : inp.all isAsciiByte = true)
    (h : (firstWsToken inp).asString ∉ keywords) :
    process_input inp = DecodeResult.fail := by
  have hmascii :
      (inp.takeWhile fun c => c != ' ' && c != '\r' && headOk inp).all isAsciiByte
        = true := takeWhile_all _ _ inp hascii
  have key : ∀ kw : List Char, kw ≠ [] → (∀ c ∈ kw, (!c.isWhitespace) = true) →
      (inp.takeWhile fun c => c != ' ' && c != '\r' && headOk inp) = kw →
      firstWsToken inp = kw := by
    intro kw hne hkw hm
    have hho : headOk inp = true := by
      cases hcc : headOk inp with
      | true => rfl
      | false =>
        exfalso
        have hconst : (fun c : Char => c != ' ' && c != '\r' && headOk inp) =
            fun _ : Char => false := by
          funext c; rw [hcc, Bool.and_false]
        rw [hconst] at hm
        have hnil : inp.takeWhile (fun _ : Char => false) = [] := by simp
        rw [hnil] at hm
        exact hne hm.symm
    apply takeWhile_of_stronger _ _ _ _ hm hkw
    intro c hpc hqc
    apply hpc
    rw [hho, Bool.and_true]
    have hcs : c ≠ ' ' := by
      intro hce; subst hce; revert hqc; decide
    have hcr : c ≠ '\r' := by
      intro hce; subst hce; revert hqc; decide
    simp [hcs, hcr]
  simp only [process_input]
  rw [if_neg (by simp [hmascii])]
  by_cases h1 :
      (inp.takeWhile fun c => c != ' ' && c != '\r' && headOk inp).asString = "QUIT"
  · exfalso
    have hm : (inp.takeWhile fun c => c != ' ' && c != '\r' && headOk inp) =
        ['Q', 'U', 'I', 'T'] := by
      have := congrArg String.toList h1; simpa using this
    have hfw := key ['Q', 'U', 'I', 'T'] (by decide) (by decide) hm
    exact h (by rw [hfw]; decide)
  rw [if_neg h1]
  by_cases h2 :
      (inp.takeWhile fun c => c != ' ' && c != '\r' && headOk inp).asString = "WHO"
  · exfalso
    have hm : (inp.takeWhile fun c => c != ' ' && c != '\r' && headOk inp) =
        ['W', 'H', 'O'] := by
      have := congrArg String.toList h2; simpa using this
    have hfw := key ['W', 'H', 'O'] (by decide) (by decide) hm
    exact h (by rw [hfw]; decide)
  rw [if_neg h2]
  by_cases h3 :
      (inp.takeWhile fun c => c != ' ' && c != '\r' && headOk inp).asString = "NAME"
  · exfalso
    have hm : (inp.takeWhile fun c => c != ' ' && c != '\r' && headOk inp) =
        ['N', 'A', 'M', 'E'] := by
      have := congrArg String.toList h3; simpa using this
    have hfw := key ['N', 'A', 'M', 'E'] (by decide) (by decide) hm
    exact h (by rw [hfw]; decide)
  rw [if_neg h3]
  by_cases h4 :
      (inp.takeWhile fun c => c != ' ' && c != '\r' && headOk inp).asString
        = "BROADCAST"
  · exfalso
    have hm : (inp.takeWhile fun c => c != ' ' && c != '\r' && headOk inp) =
        ['B', 'R', 'O', 'A', 'D', 'C', 'A', 'S', 'T'] := by
      have := congrArg String.toList h4; simpa using this
    have hfw := key ['B', 'R', 'O', 'A', 'D', 'C', 'A', 'S', 'T']
      (by decide) (by decide) hm
    exact h (by rw [hfw]; decide)
  rw [if_neg h4]

/-- C5 witness: the line "HELLO x" (first token HELLO, not a keyword) is a
decode failure. -/
theorem c5_witness : process_input ("HELLO x".toList) = DecodeResult.fail :=
  c5_amended ("HELLO x".toList) (by decide) (by decide)

/-! ### The client registry and the per-session dispatcher

`type Clients = Arc<RWLock<HashMap<Uuid, (Sender<(String, String)>, String)>>>`
(src/dikuchat.rs line 20).  The registry is modelled as an association list
from client ids to records; a record holds the client's display name and its
outbound channel, the latter modelled by the queue of messages that have been
sent into it (`Sender::send` appends).  `HashMap::pop` removes and returns
the entry (or `None`), `insert` adds an entry (position in the iteration
order is unspecified for a hash map; the model appends).  The `Uuid` ids are
opaque; `Nat` stands in for them. -/

abbrev Uuid := Nat

/-- A broadcast message as sent over a client's channel: (sender name, body)
(src/dikuchat.rs lines 20 and 122). -/
abbrev ChatMsg := String × String

/-- One registry entry value: the outbound channel (as its queued messages)
and the display name. -/
structure ClientRecord where
  chan : List ChatMsg
  name : String
deriving DecidableEq, Repr

/-- The shared `HashMap<Uuid, (Sender, String)>` as an association list. -/
abbrev Registry := List (Uuid × ClientRecord)

/-- `HashMap` lookup on the model (first entry with the key). -/
def lookupEntry (id : Uuid) : Registry → Option ClientRecord
  | [] => none
  | (i, r) :: rest => if i == id then some r else lookupEntry id rest

/-- `HashMap::pop(&id)`: remove the entry for `id` and return it together
with the remaining registry; `none` when `id` is absent. -/
def popEntry (id : Uuid) : Registry → Option (ClientRecord × Registry)
  | [] => none
  | (i, r) :: rest =>
    if i == id then some (r, rest)
    else
      match popEntry id rest with
      | none => none
      | some (v, rem) => some (v, (i, r) :: rem)

/-- `HashMap::insert(id, record)` (iteration position unspecified for a hash
map; the model appends). -/
def insertEntry (id : Uuid) (r : ClientRecord) (reg : Registry) : Registry :=
  reg ++ [(id, r)]

/-- `client.send((name, msg))` for every entry of the registry snapshot:
the fan-out loop of the `Broadcast` arm (src/dikuchat.rs lines 121-123). -/
def sendAll (msg : ChatMsg) : Registry → Registry
  | [] => []
  | (i, r) :: rest => (i, { r with chan := r.chan ++ [msg] }) :: sendAll msg rest

/-- The `Who` arm's loop body (src/dikuchat.rs lines 106-109): for every
entry of the snapshot, write one space then the entry's name. -/
def writeNames : Registry → String
  | [] => ""
  | (_, r) :: rest => " " ++ r.name ++ writeNames rest

/-- The dispatcher-local state of one session: the `name` variable
(src/dikuchat.rs line 63) and the bytes written to this session's own
`stream` so far. -/
structure SessionState where
  name : String
  output : String
deriving DecidableEq, Repr

/-- One step of the dispatcher's `rx.recv()` arm (src/dikuchat.rs lines
97-125) for the session owning `id`: given the session state and the shared
registry, handle one decoded command.  Returns `none` when the arm's
`unwrap()` fails (the dispatcher task panics), otherwise the new session
state, the new registry, and whether the loop `break`s.

* `Quit` (lines 98-102): `clients.write().pop(&id).unwrap()`, then break.
* `Who` (lines 103-111): write `NAMES`, one ` <name>` per snapshot entry,
  then the terminator; registry untouched.
* `Name(new_name)` (lines 112-117): set the local `name`, then pop the own
  entry (unwrap) and re-insert it with the same channel and the new name.
* `Broadcast(msg)` (lines 118-124): if the local name is empty write
  `NONAME\r\n` to self; otherwise send `(name, msg)` into every snapshot
  entry's channel. -/
def handleMethod (id : Uuid) (st : SessionState) (reg : Registry) :
    Method → Option (SessionState × Registry × Bool)
  | .Quit =>
    match popEntry id reg with
    | none => none
    | some (_, reg2) => some (st, reg2, true)
  | .Who =>
    some ({ st with output := st.output ++ "NAMES" ++ writeNames reg ++ "\r\n" },
      reg, false)
  | .Name newName =>
    match popEntry id reg with
    | none => none
    | some (r, reg2) =>
      some ({ st with name := newName },
        insertEntry id { chan := r.chan, name := newName } reg2, false)
  | .Broadcast msg =>
    if st.name.isEmpty then
      some ({ st with output := st.output ++ "NONAME\r\n" }, reg, false)
    else
      some (st, sendAll (st.name, msg) reg, false)

/-- One step of the dispatcher's `bcast.recv()` arm (src/dikuchat.rs lines
126-132): write `FROM <sender> <body>\r\n` to the own stream; the registry
is untouched. -/
def handleChat (st : SessionState) (m : ChatMsg) : SessionState :=
  { st with output := st.output ++ "FROM " ++ m.1 ++ " " ++ m.2 ++ "\r\n" }

/-! ### Registry lemmas -/

/-- `sendAll` is a map over the snapshot. -/
theorem sendAll_eq_map (msg : ChatMsg) (reg : Registry) :
    sendAll msg reg =
      reg.map fun e => (e.1, { chan := e.2.chan ++ [msg], name := e.2.name }) := by
  induction reg with
  | nil => rfl
  | cons e rest ih => rcases e with ⟨i, r⟩; simp [sendAll, ih]

/-- Lookup after a broadcast fan-out: the entry is still there, with the
message appended to its channel and its name untouched. -/
theorem lookupEntry_sendAll (id : Uuid) (msg : ChatMsg) (reg : Registry) :
    lookupEntry id (sendAll msg reg) =
      (lookupEntry id reg).map fun r => { chan := r.chan ++ [msg], name := r.name } := by
  induction reg with
  | nil => rfl
  | cons e rest ih =>
    rcases e with ⟨i, r⟩
    by_cases hi : (i == id) = true
    · simp [sendAll, lookupEntry, hi]
    · simp only [Bool.not_eq_true] at hi
      simp [sendAll, lookupEntry, hi, ih]

/-- A key that is absent cannot be popped. -/
theorem popEntry_eq_none (id : Uuid) (reg : Registry)
    (h : lookupEntry id reg = none) : popEntry id reg = none := by
  induction reg with
  | nil => rfl
  | cons e rest ih =>
    rcases e with ⟨i, r⟩
    by_cases hi : (i == id) = true
    · simp [lookupEntry, hi] at h
    · simp only [Bool.not_eq_true] at hi
      simp only [lookupEntry, hi] at h
      simp [popEntry, hi, ih h]

/-- A present key pops: the popped record is the looked-up one. -/
theorem popEntry_of_lookup (id : Uuid) (reg : Registry) (r0 : ClientRecord)
    (h : lookupEntry id reg = some r0) :
    ∃ rem, popEntry id reg = some (r0, rem) := by
  induction reg with
  | nil => simp [lookupEntry] at h
  | cons e rest ih =>
    rcases e with ⟨i, r⟩
    by_cases hi : (i == id) = true
    · have hr : r = r0 := by simpa [lookupEntry, hi] using h
      exact ⟨rest, by simp [popEntry, hi, hr]⟩
    · simp only [Bool.not_eq_true] at hi
      simp only [lookupEntry, hi] at h
      obtain ⟨rem, hrem⟩ := ih (by simpa using h)
      exact ⟨(i, r) :: rem, by simp [popEntry, hi, hrem]⟩

/-- Popping one key leaves lookups of every other key unchanged. -/
theorem lookupEntry_popEntry_ne (id id2 : Uuid) (reg rem : Registry)
    (r0 : ClientRecord) (hne : id ≠ id2)
    (h : popEntry id2 reg = some (r0, rem)) :
    lookupEntry id rem = lookupEntry id reg := by
  induction reg generalizing rem with
  | nil => simp [popEntry] at h
  | cons e rest ih =>
    rcases e with ⟨i, r⟩
    by_cases hi : (i == id2) = true
    · simp only [popEntry, hi, if_pos, Option.some.injEq, Prod.mk.injEq] at h
      have hii : i = id2 := by simpa using hi
      have hine : (i == id) = false := by
        simp [hii]; exact fun hc => hne hc.symm
      rw [← h.2]
      simp [lookupEntry, hine]
    · simp only [Bool.not_eq_true] at hi
      simp only [popEntry, hi] at h
      rcases hrec : popEntry id2 rest with _ | ⟨v, rem2⟩
      · rw [hrec] at h; simp at h
      · rw [hrec] at h
        injection h with h2
        injection h2 with hv hrem
        subst hv
        subst hrem
        by_cases hii : (i == id) = true
        · simp [lookupEntry, hii]
        · simp only [Bool.not_eq_true] at hii
          simp only [lookupEntry, hii]
          exact ih rem2 hrec

/-- An absent key looks up to `none`. -/
theorem lookupEntry_eq_none_of_not_mem (id : Uuid) (reg : Registry)
    (h : id ∉ reg.map Prod.fst) : lookupEntry id reg = none := by
  induction reg with
  | nil => rfl
  | cons e rest ih =>
    rcases e with ⟨i, r⟩
    simp only [List.map_cons, List.mem_cons] at h
    push_neg at h
    have hi : (i == id) = false := by simp; exact fun hc => h.1 hc.symm
    simp [lookupEntry, hi, ih h.2]

/-- With no duplicate ids, the registry left after popping a key no longer
contains it. -/
theorem lookupEntry_popEntry_self (id : Uuid) (reg rem : Registry)
    (r0 : ClientRecord) (hnodup : (reg.map Prod.fst).Nodup)
    (h : popEntry id reg = some (r0, rem)) :
    lookupEntry id rem = none := by
  induction reg generalizing rem with
  | nil => simp [popEntry] at h
  | cons e rest ih =>
    rcases e with ⟨i, r⟩
    simp only [List.map_cons, List.nodup_cons] at hnodup
    by_cases hi : (i == id) = true
    · simp only [popEntry, hi, if_pos, Option.some.injEq, Prod.mk.injEq] at h
      rw [← h.2]
      have hii : i = id := by simpa using hi
      exact lookupEntry_eq_none_of_not_mem id rest (hii ▸ hnodup.1)
    · simp only [Bool.not_eq_true] at hi
      simp only [popEntry, hi] at h
      rcases hrec : popEntry id rest with _ | ⟨v, rem2⟩
      · rw [hrec] at h; simp at h
      · rw [hrec] at h
        injection h with h2
        injection h2 with hv hrem
        subst hv
        subst hrem
        simp [lookupEntry, hi, ih rem2 hnodup.2 hrec]

/-- Appending an entry for a different key does not change a lookup. -/
theorem lookupEntry_append_ne (id id2 : Uuid) (r : ClientRecord)
    (reg : Registry) (hne : id ≠ id2) :
    lookupEntry id (reg ++ [(id2, r)]) = lookupEntry id reg := by
  induction reg with
  | nil =>
    have hi : (id2 == id) = false := by simp; exact fun hc => hne hc.symm
    simp [lookupEntry, hi]
  | cons e rest ih =>
    rcases e with ⟨i, rr⟩
    by_cases hi : (i == id) = true
    · simp [lookupEntry, hi]
    · simp only [Bool.not_eq_true] at hi
      simp [lookupEntry, hi, ih]

/-- Appending an entry for a key that is absent makes the lookup find it. -/
theorem lookupEntry_append_self (id : Uuid) (r : ClientRecord) (reg : Registry)
    (h : lookupEntry id reg = none) :
    lookupEntry id (reg ++ [(id, r)]) = some r := by
  induction reg with
  | nil => simp [lookupEntry]
  | cons e rest ih =>
    rcases e with ⟨i, rr⟩
    by_cases hi : (i == id) = true
    · simp [lookupEntry, hi] at h
    · simp only [Bool.not_eq_true] at hi
      simp only [lookupEntry, hi] at h
      simp [lookupEntry, hi, ih h]

/-- `writeNames` concatenates one space-prefixed token per snapshot entry,
in snapshot order. -/
theorem writeNames_spec (reg : Registry) :
    writeNames reg = (reg.map fun e => " " ++ e.2.name).foldr (fun a b => a ++ b) "" := by
  induction reg with
  | nil => rfl
  | cons e rest ih => rcases e with ⟨i, r⟩; simp [writeNames, ih]

/-! ### Claims C1, C2, C7, C8: the dispatcher and the registry -/

/-- C1: handling Broadcast(msg) with a non-empty own name pushes exactly one
message (own name, msg) into the outbound channel of every entry of the
registry snapshot (keys, names and all other queued messages untouched),
including the sender's own entry; with an empty own name it writes exactly
one NONAME line back to the sender, pushes nothing, and leaves the registry
unchanged. -/
theorem c1_broadcast (id : Uuid) (st : SessionState) (reg : Registry) (msg : String) :
    (st.name.isEmpty = false →
      ∃ reg2, handleMethod id st reg (Method.Broadcast msg) = some (st, reg2, false) ∧
        reg2.length = reg.length ∧
        (∀ i (hi : i < reg.length), ∃ hi2 : i < reg2.length,
          (reg2.get ⟨i, hi2⟩).1 = (reg.get ⟨i, hi⟩).1 ∧
          (reg2.get ⟨i, hi2⟩).2.name = (reg.get ⟨i, hi⟩).2.name ∧
          (reg2.get ⟨i, hi2⟩).2.chan = (reg.get ⟨i, hi⟩).2.chan ++ [(st.name, msg)]) ∧
        (∀ r0, lookupEntry id reg = some r0 →
          lookupEntry id reg2 =
            some { chan := r0.chan ++ [(st.name, msg)], name := r0.name })) ∧
    (st.name.isEmpty = true →
      handleMethod id st reg (Method.Broadcast msg) =
        some ({ st with output := st.output ++ "NONAME\r\n" }, reg, false)) := by
  constructor
  · intro hne
    refine ⟨sendAll (st.name, msg) reg, ?_, ?_, ?_, ?_⟩
    · simp [handleMethod, hne]
    · rw [sendAll_eq_map]; simp
    · intro i hi
      have hlen : (sendAll (st.name, msg) reg).length = reg.length := by
        rw [sendAll_eq_map]; simp
      refine ⟨by omega, ?_, ?_, ?_⟩ <;>
        simp [sendAll_eq_map, List.get_eq_getElem, List.getElem_map]
    · intro r0 h0
      rw [lookupEntry_sendAll, h0]
      rfl
  · intro hemp
    simp [handleMethod, hemp]

/-- C1 witness: a concrete broadcast by a named session into a two-entry
registry delivers exactly one copy to each entry, including the sender. -/
theorem c1_witness :
    ("al" : String).isEmpty = false ∧
    ∃ reg2,
      handleMethod 0 { name := "al", output := "" }
          [(0, { chan := [], name := "al" }), (1, { chan := [], name := "" })]
          (Method.Broadcast "hi") =
        some ({ name := "al", output := "" }, reg2, false) ∧
      reg2.length = 2 ∧
      lookupEntry 0 reg2 = some { chan := [("al", "hi")], name := "al" } := by
  refine ⟨by decide, ?_⟩
  obtain ⟨reg2, h1, h2, _h3, h4⟩ :=
    (c1_broadcast 0 { name := "al", output := "" }
      [(0, { chan := [], name := "al" }), (1, { chan := [], name := "" })] "hi").1
      (by decide)
  exact ⟨reg2, h1, by simpa using h2,
    by simpa using h4 { chan := [], name := "al" } rfl⟩

/-- C2: handling Who appends to the issuing session's output exactly the
line NAMES, then one space-prefixed token per snapshot entry in snapshot
order (one token per registered client, including the issuer's own possibly
empty name), then the terminator; the registry is left unchanged, and the
written tokens are a function of the registry alone, so repeating Who with
an unchanged registry yields the same names. -/
theorem c2_who (id : Uuid) (reg : Registry) :
    (∀ st : SessionState,
      handleMethod id st reg Method.Who =
        some ({ st with output := st.output ++ "NAMES" ++
          ((reg.map fun e => " " ++ e.2.name).foldr (fun a b => a ++ b) "") ++ "\r\n" },
          reg, false)) ∧
    (reg.map fun e => " " ++ e.2.name).length = reg.length ∧
    (∀ r0 : ClientRecord, (id, r0) ∈ reg →
      (" " ++ r0.name) ∈ reg.map fun e => " " ++ e.2.name) := by
  refine ⟨?_, by simp, ?_⟩
  · intro st
    simp [handleMethod, writeNames_spec]
  · intro r0 h0
    exact List.mem_map.mpr ⟨(id, r0), h0, rfl⟩

/-- C2 witness: a concrete Who against a two-entry registry (own name empty)
writes NAMES, the two name tokens in snapshot order, and the terminator. -/
theorem c2_witness :
    handleMethod 0 { name := "x", output := "y" }
        [(0, { chan := [], name := "" }), (1, { chan := [], name := "bob" })]
        Method.Who =
      some ({ name := "x", output := "yNAMES  bob\r\n" },
        [(0, { chan := [], name := "" }), (1, { chan := [], name := "bob" })],
        false) := by
  have h := (c2_who 0
    [(0, { chan := [], name := "" }), (1, { chan := [], name := "bob" })]).1
    { name := "x", output := "y" }
  rw [h]
  rfl

/-- C7 counterexample: with an empty registry (id 0 absent), the Quit
cleanup is not a no-op that leaves the registry unchanged: the
`pop(&id).unwrap()` fails (the dispatcher task panics, modelled by `none`),
so no final state with the unchanged registry exists. -/
theorem c7_counterexample :
    handleMethod 0 { name := "", output := "" } ([] : Registry) Method.Quit = none ∧
    ¬ ∃ st2 : SessionState,
        handleMethod 0 { name := "", output := "" } ([] : Registry) Method.Quit =
          some (st2, ([] : Registry), true) := by
  constructor
  · rfl
  · intro hex
    rcases hex with ⟨st2, h⟩
    simp [handleMethod, popEntry] at h

/-- C7 (amended): the Quit cleanup is not idempotent on an absent id: for
every registry state not containing the id, `pop(&id)` returns None and the
`unwrap()` fails (the dispatcher task panics) instead of leaving the
registry unchanged. -/
theorem c7_amended (id : Uuid) (st : SessionState) (reg : Registry)
    (h : lookupEntry id reg = none) :
    handleMethod id st reg Method.Quit = none := by
  simp [handleMethod, popEntry_eq_none id reg h]

/-- C7 witness: quitting with id 7 against a registry holding only id 3
fails. -/
theorem c7_witness :
    handleMethod 7 { name := "a", output := "" }
      [(3, { chan := [], name := "x" })] Method.Quit = none :=
  c7_amended 7 { name := "a", output := "" } [(3, { chan := [], name := "x" })] rfl

/-- C8: for a registered id (in a duplicate-free registry, as guaranteed by
unique Uuid generation), handling SetName(n) sets the dispatcher-local name
to n and replaces only the name field of the own registry entry: the entry's
outbound channel is exactly the one from before the update, nothing is
written to the output, and the lookup of every other id is unchanged. -/
theorem c8_setname (id : Uuid) (st : SessionState) (reg : Registry) (n : String)
    (r0 : ClientRecord) (hnodup : (reg.map Prod.fst).Nodup)
    (h : lookupEntry id reg = some r0) :
    ∃ st2 reg2, handleMethod id st reg (Method.Name n) = some (st2, reg2, false) ∧
      st2.name = n ∧ st2.output = st.output ∧
      lookupEntry id reg2 = some { chan := r0.chan, name := n } ∧
      (∀ id2, id2 ≠ id → lookupEntry id2 reg2 = lookupEntry id2 reg) := by
  obtain ⟨rem, hpop⟩ := popEntry_of_lookup id reg r0 h
  refine ⟨{ st with name := n },
    insertEntry id { chan := r0.chan, name := n } rem, ?_, rfl, rfl, ?_, ?_⟩
  · simp [handleMethod, hpop]
  · exact lookupEntry_append_self id _ rem
      (lookupEntry_popEntry_self id reg rem r0 hnodup hpop)
  · intro id2 hne
    rw [insertEntry, lookupEntry_append_ne id2 id _ rem hne,
      lookupEntry_popEntry_ne id2 id reg rem r0 hne hpop]

/-- C8 witness: renaming id 0 to "al" in a two-entry registry keeps its
channel and leaves id 1's entry untouched. -/
theorem c8_witness :
    ∃ st2 reg2,
      handleMethod 0 { name := "", output := "" }
          [(0, { chan := [("z", "m")], name := "" }), (1, { chan := [], name := "b" })]
          (Method.Name "al") = some (st2, reg2, false) ∧
      st2.name = "al" ∧ st2.output = "" ∧
      lookupEntry 0 reg2 = some { chan := [("z", "m")], name := "al" } ∧
      (∀ id2, id2 ≠ 0 → lookupEntry id2 reg2 =
        lookupEntry id2
          [(0, { chan := [("z", "m")], name := "" }), (1, { chan := [], name := "b" })]) := by
  obtain ⟨st2, reg2, h1, h2, h3, h4, h5⟩ :=
    c8_setname 0 { name := "", output := "" }
      [(0, { chan := [("z", "m")], name := "" }), (1, { chan := [], name := "b" })]
      "al" { chan := [("z", "m")], name := "" } (by decide) rfl
  exact ⟨st2, reg2, h1, h2, h3, h4, h5⟩

/-! ### Claim C9: the local name mirrors the registry entry -/

/-- The session invariant of C9: whenever the session's own registry entry
exists, its stored name equals the dispatcher-local `name` variable. -/
def nameInv (id : Uuid) (st : SessionState) (reg : Registry) : Prop :=
  ∀ r : ClientRecord, lookupEntry id reg = some r → r.name = st.name

/-- C9: the dispatcher-local name variable stays equal to the name stored in
the session's own registry entry: (1) it holds at session start (both empty,
src/dikuchat.rs lines 63 and 147); (2) it is preserved by every own
dispatcher command (in a duplicate-free registry), the two being changed
only together by the Name arm; (3) it is preserved by incoming chat
messages; (4) it is preserved by any other session's commands; and (5) as a
consequence the sender_name a broadcast fans out (the local name, line 122)
equals the name other clients see via WHO (the stored name). -/
theorem c9_name_sync :
    (∀ (id : Uuid) (reg0 : Registry) (ch : List ChatMsg),
      lookupEntry id reg0 = none →
      nameInv id { name := "", output := "" }
        (insertEntry id { chan := ch, name := "" } reg0)) ∧
    (∀ (id : Uuid) (st : SessionState) (reg : Registry) (ev : Method)
        (st2 : SessionState) (reg2 : Registry) (b : Bool),
      (reg.map Prod.fst).Nodup → nameInv id st reg →
      handleMethod id st reg ev = some (st2, reg2, b) → nameInv id st2 reg2) ∧
    (∀ (id : Uuid) (st : SessionState) (reg : Registry) (m : ChatMsg),
      nameInv id st reg → nameInv id (handleChat st m) reg) ∧
    (∀ (id id2 : Uuid) (st st2 : SessionState) (reg : Registry) (ev : Method)
        (st3 : SessionState) (reg2 : Registry) (b : Bool),
      id2 ≠ id → nameInv id st reg →
      handleMethod id2 st2 reg ev = some (st3, reg2, b) → nameInv id st reg2) ∧
    (∀ (id : Uuid) (st : SessionState) (reg : Registry) (r0 : ClientRecord),
      nameInv id st reg → lookupEntry id reg = some r0 → st.name = r0.name) := by
  refine ⟨?_, ?_, ?_, ?_, ?_⟩
  · intro id reg0 ch h0
    intro r hr
    rw [insertEntry, lookupEntry_append_self id _ reg0 h0] at hr
    injection hr with hr
    rw [← hr]
  · intro id st reg ev st2 reg2 b hnodup hinv heq
    cases ev with
    | Quit =>
      rcases hpop : popEntry id reg with _ | ⟨r0, rem⟩
      · simp [handleMethod, hpop] at heq
      · simp only [handleMethod, hpop] at heq
        injection heq with heq
        injection heq with hst heq
        injection heq with hreg hb
        intro r hr
        rw [← hreg, lookupEntry_popEntry_self id reg rem r0 hnodup hpop] at hr
        cases hr
    | Who =>
      simp only [handleMethod] at heq
      injection heq with heq
      injection heq with hst heq
      injection heq with hreg hb
      intro r hr
      rw [← hreg] at hr
      rw [← hst]
      exact hinv r hr
    | Name n =>
      rcases hpop : popEntry id reg with _ | ⟨r0, rem⟩
      · simp [handleMethod, hpop] at heq
      · simp only [handleMethod, hpop] at heq
        injection heq with heq
        injection heq with hst heq
        injection heq with hreg hb
        intro r hr
        rw [← hreg, insertEntry,
          lookupEntry_append_self id _ rem
            (lookupEntry_popEntry_self id reg rem r0 hnodup hpop)] at hr
        injection hr with hr
        rw [← hr, ← hst]
    | Broadcast msg =>
      by_cases hemp : st.name.isEmpty = true
      · simp only [handleMethod, hemp, if_pos] at heq
        injection heq with heq
        injection heq with hst heq
        injection heq with hreg hb
        intro r hr
        rw [← hreg] at hr
        rw [← hst]
        exact hinv r hr
      · simp only [handleMethod, hemp] at heq
        rw [if_neg Bool.false_ne_true] at heq
        injection heq with heq
        injection heq with hst heq
        injection heq with hreg hb
        intro r hr
        rw [← hreg, lookupEntry_sendAll] at hr
        rcases hlk : lookupEntry id reg with _ | ⟨r1⟩
        · rw [hlk] at hr; cases hr
        · rw [hlk] at hr
          injection hr with hr
          rw [← hr, ← hst]
          exact hinv r1 hlk
  · intro id st reg m hinv
    intro r hr
    rw [handleChat]
    exact hinv r hr
  · intro id id2 st st2 reg ev st3 reg2 b hne hinv heq
    cases ev with
    | Quit =>
      rcases hpop : popEntry id2 reg with _ | ⟨r0, rem⟩
      · simp [handleMethod, hpop] at heq
      · simp only [handleMethod, hpop] at heq
        injection heq with heq
        injection heq with hst heq
        injection heq with hreg hb
        intro r hr
        rw [← hreg, lookupEntry_popEntry_ne id id2 reg rem r0 (Ne.symm hne) hpop] at hr
        exact hinv r hr
    | Who =>
      simp only [handleMethod] at heq
      injection heq with heq
      injection heq with hst heq
      injection heq with hreg hb
      intro r hr
      rw [← hreg] at hr
      exact hinv r hr
    | Name n =>
      rcases hpop : popEntry id2 reg with _ | ⟨r0, rem⟩
      · simp [handleMethod, hpop] at heq
      · simp only [handleMethod, hpop] at heq
        injection heq with heq
        injection heq with hst heq
        injection heq with hreg hb
        intro r hr
        rw [← hreg, insertEntry, lookupEntry_append_ne id id2 _ rem (Ne.symm hne),
          lookupEntry_popEntry_ne id id2 reg rem r0 (Ne.symm hne) hpop] at hr
        exact hinv r hr
    | Broadcast msg =>
      by_cases hemp : st2.name.isEmpty = true
      · simp only [handleMethod, hemp, if_pos] at heq
        injection heq with heq
        injection heq with hst heq
        injection heq with hreg hb
        intro r hr
        rw [← hreg] at hr
        exact hinv r hr
      · simp only [handleMethod, hemp] at heq
        rw [if_neg Bool.false_ne_true] at heq
        injection heq with heq
        injection heq with hst heq
        injection heq with hreg hb
        intro r hr
        rw [← hreg, lookupEntry_sendAll] at hr
        rcases hlk : lookupEntry id reg with _ | ⟨r1⟩
        · rw [hlk] at hr; cases hr
        · rw [hlk] at hr
          injection hr with hr
          rw [← hr]
          exact hinv r1 hlk
  · intro id st reg r0 hinv h0
    exact (hinv r0 h0).symm

/-- C9 witness: after a concrete SetName("al") step from the freshly
inserted state, the invariant holds again. -/
theorem c9_witness :
    nameInv 0 { name := "al", output := "" } [(0, { chan := [], name := "al" })] := by
  have hstart : nameInv 0 { name := "", output := "" }
      [(0, { chan := [], name := "" })] := by
    intro r hr
    injection hr with hr
    rw [← hr]
  exact c9_name_sync.2.1 0 { name := "", output := "" }
    [(0, { chan := [], name := "" })] (Method.Name "al")
    { name := "al", output := "" } [(0, { chan := [], name := "al" })] false
    (by decide) hstart rfl

/-! ### Claim C10: the reader's line-slice computation

The reader (src/dikuchat.rs lines 72-93) reads into
`let mut buffer = [0u8, ..1024*16]` (line 61) and on `Ok(n)` extracts the
logical line as `buffer.slice(0, n-2)` (line 75).  `n` is a `uint`
(64-bit on the build platform) and pre-1.0 Rust integer arithmetic wraps,
so for n < 2 the end index wraps around to 2^64-2 or 2^64-1; `slice(0, e)`
is well-defined only for e at most the buffer length. -/

/-- The reader's buffer size, `1024*16` bytes (src/dikuchat.rs line 61). -/
def BUFSIZE : Nat := 1024 * 16

/-- 2^64: the modulus of `uint` arithmetic on the 64-bit build platform. -/
def UINT_MOD : Nat := 18446744073709551616

/-- The end index `n - 2` computed on src/dikuchat.rs line 75, as the
wrapping `uint` subtraction. -/
def lineSliceEnd (n : Nat) : Nat := (n + (UINT_MOD - 2)) % UINT_MOD

/-- `buffer.slice(0, e)` is well-defined exactly when the end index is
within the buffer; otherwise the slice call fails the task. -/
def sliceInBounds (n : Nat) : Prop := lineSliceEnd n ≤ BUFSIZE

/-- C10 counterexample: a successful read of n = 1 bytes (possible for TCP:
one byte arrives with no terminator) makes the slice end index wrap to
2^64 - 1, far past the 16 KiB buffer, so the slice computation is out of
range (the reader task fails) -- the claim's "handled without the slice
index computation going out of range" is false; a read of n = 0 likewise
wraps to 2^64 - 2. -/
theorem c10_counterexample :
    1 ≤ BUFSIZE ∧ ¬ sliceInBounds 1 ∧ ¬ sliceInBounds 0 ∧
    lineSliceEnd 1 = UINT_MOD - 1 := by
  refine ⟨by decide, ?_, ?_, ?_⟩
  · intro h
    rw [sliceInBounds, lineSliceEnd, UINT_MOD, BUFSIZE] at h
    omega
  · intro h
    rw [sliceInBounds, lineSliceEnd, UINT_MOD, BUFSIZE] at h
    omega
  · rw [lineSliceEnd, UINT_MOD]

/-- C10 (amended): for a successful read of n bytes with 2 <= n <= the
buffer size, the end index is the exact n - 2 and the slice [0, n-2] is
well-defined; for n = 0 or n = 1 (no full terminator present) the wrapped
end index exceeds the buffer length and the slice computation goes out of
range, failing the reader task. -/
theorem c10_amended :
    (∀ n : Nat, 2 ≤ n → n ≤ BUFSIZE →
      lineSliceEnd n = n - 2 ∧ sliceInBounds n) ∧
    (∀ n : Nat, n < 2 → ¬ sliceInBounds n) := by
  constructor
  · intro n h2 hb
    rw [BUFSIZE] at hb
    have hmod : lineSliceEnd n = n - 2 := by
      rw [lineSliceEnd, UINT_MOD]
      omega
    refine ⟨hmod, ?_⟩
    rw [sliceInBounds, hmod, BUFSIZE]
    omega
  · intro n hlt h
    rw [sliceInBounds, lineSliceEnd, UINT_MOD, BUFSIZE] at h
    omega

/-- C10 witness: a 16-byte read slices [0, 14] safely, and a 1-byte read is
out of range. -/
theorem c10_witness :
    (2 ≤ 16 ∧ 16 ≤ BUFSIZE ∧ lineSliceEnd 16 = 14 ∧ sliceInBounds 16) ∧
    (1 < 2 ∧ ¬ sliceInBounds 1) := by
  refine ⟨⟨by decide, by decide, ?_, ?_⟩, by decide, ?_⟩
  · exact (c10_amended.1 16 (by decide) (by decide)).1
  · exact (c10_amended.1 16 (by decide) (by decide)).2
  · exact c10_amended.2 1 (by decide)
